import Mathlib

/-!
Verification of the worker-pool orchestration layer of an RLlib-style
Trainer (src/rllib/agents/trainer.py), via a shallow embedding of the
relevant control flow into Lean.

Conventions of the embedding:
  - Python exceptions become `Except` / explicit error constructors.
  - Remote calls are modelled by their observable outcome (a function from
    the call index or the worker id to an outcome value).
  - Machine-level details (actual tensors, pickled bytes) are abstracted to
    abstract values (`List Nat` blobs, metric association lists); the claims
    under verification only concern control flow, counting and routing of
    these values, never their numeric content.
-/

namespace RayTrainer

/-! ## Train loop with bounded retry (trainer.py lines 50-52 and 634-665) -/

/-- Source constant `MAX_WORKER_FAILURE_RETRIES = 3` (trainer.py line 52). -/
def MAX_WORKER_FAILURE_RETRIES : Nat := 3

/-- Outcome of one call to `Trainable.train(self)` (the underlying training
step): a successful result, a raised `RayError` (worker-originating remote
failure), or any other raised exception. -/
inductive StepOutcome where
  | ok (result : Nat)
  | rayError
  | otherError
deriving DecidableEq, Repr

/-- The error surfaced by `Trainer.train` in the embedding:
`rayErrorRaised` re-raises the `RayError` (line 653), `otherErrorRaised`
re-raises a non-worker exception (line 656), `recoverFailed` is the
`RuntimeError` raised inside `_try_recover` when no healthy worker remains
(lines 1556-1558), and `noResult` is the final
`RuntimeError("Failed to recover from worker crash")` (line 660). -/
inductive TrainErr where
  | rayErrorRaised
  | otherErrorRaised
  | recoverFailed
  | noResult
deriving DecidableEq, Repr

/-- The retry loop of `Trainer.train` (lines 639-658).  `step i` is the
outcome of the i-th call to `Trainable.train`, `recoverOk i` tells whether
`_try_recover` after the i-th attempt succeeds (when it fails it raises,
modelled by `.error .recoverFailed`).  `fuel` is the number of loop
iterations left, `i` the index of the next attempt.  Returns `.ok none`
when the loop exhausts its iterations without a successful attempt (the
Python `result` variable is still `None`). -/
def trainAttempts (ignoreWorkerFailures : Bool) (step : Nat → StepOutcome)
    (recoverOk : Nat → Bool) : Nat → Nat → Except TrainErr (Option Nat)
  | _, 0 => .ok none
  | i, fuel + 1 =>
    match step i with
    | .ok r => .ok (some r)
    | .rayError =>
      if ignoreWorkerFailures then
        if recoverOk i then
          trainAttempts ignoreWorkerFailures step recoverOk (i + 1) fuel
        else .error .recoverFailed
      else .error .rayErrorRaised
    | .otherError => .error .otherErrorRaised

/-- `Trainer.train` (lines 634-665): run the retry loop for
`1 + MAX_WORKER_FAILURE_RETRIES` iterations; if the loop ends with no
result, raise `RuntimeError("Failed to recover from worker crash")`
(lines 659-660). -/
def train (ignoreWorkerFailures : Bool) (step : Nat → StepOutcome)
    (recoverOk : Nat → Bool) : Except TrainErr Nat :=
  match trainAttempts ignoreWorkerFailures step recoverOk 0
      (1 + MAX_WORKER_FAILURE_RETRIES) with
  | .error e => .error e
  | .ok none => .error .noResult
  | .ok (some r) => .ok r

/-- Number of calls to `Trainable.train` actually made by the retry loop
(each loop iteration that is entered makes exactly one call). -/
def attemptsMade (ignoreWorkerFailures : Bool) (step : Nat → StepOutcome)
    (recoverOk : Nat → Bool) : Nat → Nat → Nat
  | _, 0 => 0
  | i, fuel + 1 =>
    1 + (match step i with
      | .ok _ => 0
      | .rayError =>
        if ignoreWorkerFailures then
          if recoverOk i then
            attemptsMade ignoreWorkerFailures step recoverOk (i + 1) fuel
          else 0
        else 0
      | .otherError => 0)

/-- Total number of calls to the underlying training step made by one call
to `Trainer.train`. -/
def numAttempts (ignoreWorkerFailures : Bool) (step : Nat → StepOutcome)
    (recoverOk : Nat → Bool) : Nat :=
  attemptsMade ignoreWorkerFailures step recoverOk 0
    (1 + MAX_WORKER_FAILURE_RETRIES)

/-! ## Health-check recovery (`Trainer._try_recover`, lines 1524-1562) -/

/-- The `RuntimeError("Not enough healthy workers remain to continue.")`
raised by `_try_recover`. -/
inductive RecoverErr where
  | notEnoughHealthy
deriving DecidableEq, Repr

/-- `Trainer._try_recover` (lines 1524-1562): probe every remote worker of
the primary pool (a `sample_with_count` remote call, awaited individually);
workers whose probe raises a `RayError` are terminated and dropped,
workers whose probe succeeds are kept in order.  If fewer than one healthy
worker remains, raise; otherwise the surviving list becomes the new
remote-worker set (`workers.reset(healthy_workers)`). -/
def tryRecover (remoteWorkers : List Nat) (probeOk : Nat → Bool) :
    Except RecoverErr (List Nat) :=
  let healthy := remoteWorkers.filter probeOk
  if healthy.length < 1 then .error .notEnoughHealthy
  else .ok healthy

/-! ## Checkpoint state and `Trainer.__setstate__` (lines 1609-1648) -/

/-- An abstract serialized state blob (the pickled local-worker state). -/
abbrev Blob := List Nat

/-- A worker, reduced to its identity and the serialized state it currently
holds; `RolloutWorker.restore(blob)` replaces the held state with the given
blob. -/
structure WorkerState where
  idx : Nat
  state : Blob
deriving DecidableEq, Repr

/-- `RolloutWorker.restore`: install the given serialized state. -/
def restoreWorker (w : WorkerState) (b : Blob) : WorkerState :=
  ⟨w.idx, b⟩

/-- A worker pool: one local worker plus zero or more remote workers
(`WorkerSet`). -/
structure WorkerPool where
  localWorker : WorkerState
  remoteWorkers : List WorkerState
deriving DecidableEq, Repr

/-- The checkpoint-state bundle produced by `Trainer.__getstate__`
(lines 1609-1621): optional local-worker state, optional optimizer state,
optional replay-buffer state. -/
structure CheckpointState where
  worker : Option Blob
  optimizer : Option Blob
  localReplayBuffer : Option Blob
deriving DecidableEq, Repr

/-- The worker-restoring part of `Trainer.__setstate__` (lines 1624-1628):
if the bundle holds local-worker state, restore the local worker from it
and send the very same blob (`remote_state = ray.put(state["worker"])`) to
every remote worker of the pool. -/
def setstateWorkers (p : WorkerPool) (st : CheckpointState) : WorkerPool :=
  match st.worker with
  | none => p
  | some b =>
    ⟨restoreWorker p.localWorker b,
     p.remoteWorkers.map (fun r => restoreWorker r b)⟩

/-- The trainer attributes consulted by `__setstate__` beyond the pool:
whether `self.optimizer` exists, whether `self.local_replay_buffer` is not
`None`, and the `store_buffer_in_checkpoints` config flag. -/
structure RestoreCtx where
  hasOptimizer : Bool
  hasLocalReplayBuffer : Bool
  storeBufferInCheckpoints : Bool
deriving DecidableEq, Repr

/-- Warning text of trainer.py lines 1641-1643. -/
def bufferRequestedAbsentWarn : String :=
  "store_buffer_in_checkpoints is True, but no replay data found in state!"

/-- Warning text of trainer.py lines 1646-1648. -/
def bufferPresentUnrequestedWarn : String :=
  "store_buffer_in_checkpoints is False, but some replay data found in state!"

/-- Observable effects of the optimizer / replay-buffer part of
`Trainer.__setstate__` (lines 1629-1648). -/
structure SetstateEffects where
  optimizerRestored : Bool
  bufferRestored : Bool
  warnings : List String
deriving DecidableEq, Repr

/-- The optimizer / replay-buffer branches of `Trainer.__setstate__`
(lines 1629-1648).  Optimizer state is restored when present in the bundle
and an optimizer exists.  The replay-buffer branches run only when
`self.local_replay_buffer is not None`; `log_once` is modelled as its
first occurrence in the process (it returns `True`). -/
def setstateEffects (c : RestoreCtx) (st : CheckpointState) : SetstateEffects :=
  let optimizerRestored := st.optimizer.isSome && c.hasOptimizer
  if c.hasLocalReplayBuffer then
    if c.storeBufferInCheckpoints then
      match st.localReplayBuffer with
      | some _ => ⟨optimizerRestored, true, []⟩
      | none => ⟨optimizerRestored, false, [bufferRequestedAbsentWarn]⟩
    else
      match st.localReplayBuffer with
      | some _ => ⟨optimizerRestored, false, [bufferPresentUnrequestedWarn]⟩
      | none => ⟨optimizerRestored, false, []⟩
  else ⟨optimizerRestored, false, []⟩

/-- The disagreement predicate used by claim C6: the configuration asks for
buffer capture but the bundle has none, or the bundle carries buffer data
that was not asked for. -/
def bufferDisagree (c : RestoreCtx) (st : CheckpointState) : Bool :=
  (c.storeBufferInCheckpoints && st.localReplayBuffer.isNone) ||
  (!c.storeBufferInCheckpoints && st.localReplayBuffer.isSome)

/-! ## `Trainer.evaluate` (lines 844-924) -/

/-- The value returned by a configured `custom_eval_function`: either a
(possibly empty) dict of metrics or something that is not a dict. -/
inductive CustomEvalResult where
  | dict (metrics : List (String × Int))
  | nonDict
deriving DecidableEq, Repr

/-- The evaluation-relevant slice of the trainer: the configured custom
eval function (modelled by the value it would return), the optional
evaluation worker set (its remote-worker ids), whether the primary local
worker has an environment to sample from (an `input_reader`), and the two
evaluation config entries the code reads. -/
structure EvalSetup where
  customEvalFunction : Option CustomEvalResult
  evaluationWorkers : Option (List Nat)
  localWorkerHasInputReader : Bool
  evaluationNumEpisodes : Nat
  evaluationNumWorkers : Nat
deriving DecidableEq, Repr

/-- Counts of the sampling work performed by one `evaluate()` call:
completed `sample()` calls on the primary local worker, completed
`sample()` calls on the evaluation local worker, fan-out rounds, and total
`sample.remote()` calls issued to evaluation remote workers. -/
structure EvalTrace where
  primaryLocalSamples : Nat
  evalLocalSamples : Nat
  numRounds : Nat
  remoteSampleCalls : Nat
deriving DecidableEq, Repr

/-- Result of `evaluate()`: the returned metrics dict, or a raised
exception carrying its message. -/
inductive EvalOutcome where
  | ok (metrics : List (String × Int))
  | raised (msg : String)
deriving DecidableEq, Repr

/-- The actionable error message of trainer.py lines 889-897, raised when
evaluation runs on the primary local worker and that worker has no
environment. -/
def noEvalEnvMsg : String :=
  "Cannot evaluate w/o an evaluation worker set in the Trainer or w/o an env on the local worker!\nTry one of the following:\n1) Set `evaluation_interval` >= 0 to force creating a separate evaluation worker set.\n2) Set `create_env_on_driver=True` to force the local (non-eval) worker to have an environment to evaluate on."

/-- The error message of trainer.py lines 872-873 (format argument
elided), raised when the custom eval function does not return a dict of
metrics. -/
def customEvalMsg : String :=
  "Custom eval function must return dict of metrics."

/-- Stand-in for the metrics dict assembled by `collect_metrics` (excluded
sampling code); the claims never depend on its contents. -/
def collectedMetrics : List (String × Int) :=
  [("episode_reward_mean", 0)]

/-- Python `int(math.ceil(a / b))` on non-negative integers, which the
source uses at lines 907-909; embedded as the exact ceiling of the
division. -/
def pyCeil (a b : Nat) : Nat := (a + b - 1) / b

/-- `Trainer.evaluate` (lines 844-924), reduced to its branch structure.
A configured custom eval function replaces everything else and its result
must be a non-empty dict (lines 866-873).  Otherwise: with no evaluation
worker set, the primary local worker runs `evaluation_num_episodes`
in-line episodes, and if it lacks an `input_reader` the first `sample()`
of that loop raises a `ValueError` that is translated into the
remediation message (lines 878-899) — with `evaluation_num_episodes = 0`
the loop body never runs, no `sample()` is attempted, and metrics are
collected without that error; with an evaluation worker set but
`evaluation_num_workers == 0`, the evaluation local worker runs the
episodes serially (lines 902-904); otherwise
`num_rounds = ceil(evaluation_num_episodes / evaluation_num_workers)`
fan-out rounds each issue one `sample.remote()` per evaluation remote
worker (lines 905-919). -/
def evaluateM (s : EvalSetup) : EvalOutcome × EvalTrace :=
  match s.customEvalFunction with
  | some res =>
    (match res with
      | .dict (e :: es) => .ok (e :: es)
      | .dict [] => .raised customEvalMsg
      | .nonDict => .raised customEvalMsg,
     ⟨0, 0, 0, 0⟩)
  | none =>
    match s.evaluationWorkers with
    | none =>
      if s.localWorkerHasInputReader then
        (.ok collectedMetrics, ⟨s.evaluationNumEpisodes, 0, 0, 0⟩)
      else
        if s.evaluationNumEpisodes = 0 then
          (.ok collectedMetrics, ⟨0, 0, 0, 0⟩)
        else
          (.raised noEvalEnvMsg, ⟨0, 0, 0, 0⟩)
    | some remotes =>
      if s.evaluationNumWorkers = 0 then
        (.ok collectedMetrics, ⟨0, s.evaluationNumEpisodes, 0, 0⟩)
      else
        let rounds := pyCeil s.evaluationNumEpisodes s.evaluationNumWorkers
        (.ok collectedMetrics, ⟨0, 0, rounds, rounds * remotes.length⟩)

/-- True when `pat` occurs as a contiguous substring of `s`. -/
def listStarts : List Char → List Char → Bool
  | [], _ => true
  | _ :: _, [] => false
  | a :: as, b :: bs => a == b && listStarts as bs

/-- Substring occurrence test used to state that an error message names a
remediation. -/
def strContains (s pat : String) : Bool :=
  s.toList.tails.any (fun t => listStarts pat.toList t)

/-! ## `Trainer.default_resource_request` (lines 599-632) -/

/-- One resource bundle of the placement group. -/
structure Bundle where
  cpu : ℚ
  gpu : ℚ
deriving DecidableEq, Repr

/-- The produced resource request descriptor. -/
structure PlacementGroupFactory where
  bundles : List Bundle
  strategy : String
deriving DecidableEq, Repr

/-- The slice of the merged config `cf = dict(cls._default_config,
**config)` read by `default_resource_request`, together with the raw
`evaluation_config` sub-dict entries it falls back from and the
user-supplied `placement_strategy` (looked up with `config.get(...,
"PACK")` on the un-merged user config). -/
structure ResourceCfg where
  num_cpus_for_driver : ℚ
  num_gpus : ℚ
  num_cpus_per_worker : ℚ
  num_gpus_per_worker : ℚ
  num_workers : Nat
  evaluation_num_workers : Nat
  evaluation_interval : Option Int
  eval_cfg_num_cpus_per_worker : Option ℚ
  eval_cfg_num_gpus_per_worker : Option ℚ
  user_placement_strategy : Option String
deriving DecidableEq, Repr

/-- Python truthiness of the `evaluation_interval` entry (default `None`):
`None` and `0` are falsy. -/
def truthyInterval : Option Int → Bool
  | none => false
  | some n => n ≠ 0

/-- `Trainer.default_resource_request` (lines 599-632): one driver bundle,
one bundle per configured rollout worker, and — only under
`if cf["evaluation_interval"]` — one bundle per configured evaluation
worker (each evaluation bundle falling back from `evaluation_config` to
the top-level per-worker resources); the strategy tag comes from the user
config with default `"PACK"`. -/
def default_resource_request (cf : ResourceCfg) : PlacementGroupFactory :=
  { bundles :=
      [⟨cf.num_cpus_for_driver, cf.num_gpus⟩] ++
      List.replicate cf.num_workers
        ⟨cf.num_cpus_per_worker, cf.num_gpus_per_worker⟩ ++
      (if truthyInterval cf.evaluation_interval then
        List.replicate cf.evaluation_num_workers
          ⟨cf.eval_cfg_num_cpus_per_worker.getD cf.num_cpus_per_worker,
           cf.eval_cfg_num_gpus_per_worker.getD cf.num_gpus_per_worker⟩
       else []),
    strategy := cf.user_placement_strategy.getD "PACK" }

/-! ## Python object heap, `copy.deepcopy` and `Trainer.merge_trainer_configs`
(lines 1344-1364)

`merge_trainer_configs` deep-copies the base config dict and then merges
the override dict into the copy in place.  To state the frame property of
claim C10 (the base tree of the caller is unchanged), Python dict objects are
modelled explicitly: a heap maps addresses to dict objects, whose values
are scalars or references to further dict objects. -/

/-- A Python scalar config value. -/
inductive Scalar where
  | int (n : Int)
  | str (s : String)
  | boolean (b : Bool)
  | pyNone
deriving DecidableEq, Repr

/-- A pure (heap-independent) config tree, used for override dicts and for
reading a heap object out into a value. -/
inductive PTree where
  | leaf (v : Scalar)
  | node (entries : List (String × PTree))

/-- A slot of a dict object: a scalar, or a reference to another dict
object on the heap. -/
inductive HVal where
  | leaf (v : Scalar)
  | ref (a : Nat)
deriving DecidableEq, Repr

/-- A Python dict object: an association list of keys to slots. -/
abbrev Dict := List (String × HVal)

/-- The Python object heap: a store of dict objects indexed by address and
the next fresh address. -/
structure Heap where
  store : Nat → Option Dict
  next : Nat

/-- Overwrite the dict object at address `a` (in-place dict mutation). -/
def Heap.write (h : Heap) (a : Nat) (d : Dict) : Heap :=
  ⟨fun x => if x = a then some d else h.store x, h.next⟩

/-- Allocate a new dict object at the next fresh address. -/
def Heap.alloc (h : Heap) (d : Dict) : Heap × Nat :=
  (⟨fun x => if x = h.next then some d else h.store x, h.next + 1⟩, h.next)

/-- Read the value reachable from a slot out of the heap as a pure tree;
`fuel` bounds the dereferencing depth (Python config dicts are acyclic). -/
def readVal (h : Heap) : Nat → HVal → Option PTree
  | 0, _ => none
  | _ + 1, .leaf s => some (.leaf s)
  | f + 1, .ref a =>
    match h.store a with
    | none => none
    | some d =>
      (d.foldr
        (fun kv acc =>
          match readVal h f kv.2, acc with
          | some t, some ts => some ((kv.1, t) :: ts)
          | _, _ => none)
        (some [])).map PTree.node

/-- The dict traversal performed by `readVal`, spelled out entry by
entry. -/
def readEntries (h : Heap) (fuel : Nat) : Dict → Option (List (String × PTree))
  | [] => some []
  | kv :: rest =>
    match readVal h fuel kv.2, readEntries h fuel rest with
    | some t, some ts => some ((kv.1, t) :: ts)
    | _, _ => none

mutual

/-- Materialize a pure tree on the heap, allocating a fresh dict object for
every node (no object is shared with any pre-existing one). -/
def allocTree (h : Heap) (t : PTree) : Heap × HVal :=
  match t with
  | .leaf s => (h, .leaf s)
  | .node es =>
    let p := allocDict h es
    let q := p.1.alloc p.2
    (q.1, .ref q.2)

/-- Materialize every entry of a pure node on the heap. -/
def allocDict (h : Heap) (es : List (String × PTree)) : Heap × Dict :=
  match es with
  | [] => (h, [])
  | (k, t) :: rest =>
    let p := allocTree h t
    let q := allocDict p.1 rest
    (q.1, (k, p.2) :: q.2)

end

/-- `config1 = copy.deepcopy(config1)` (trainer.py line 1350) for acyclic
dict trees: read the object out into a pure tree and rebuild it from
all-fresh objects. -/
def deepcopy (h : Heap) (fuel : Nat) (v : HVal) : Option (Heap × HVal) :=
  match readVal h fuel v with
  | none => none
  | some t => some (allocTree h t)

/-- Look a key up in a dict object. -/
def lookupKey (d : Dict) (k : String) : Option HVal :=
  (d.find? (fun kv => kv.1 == k)).map (fun kv => kv.2)

/-- `d[k] = v` on a dict object: replace the slot if the key exists,
append it otherwise. -/
def setKey (d : Dict) (k : String) (v : HVal) : Dict :=
  if d.any (fun kv => kv.1 == k) then
    d.map (fun kv => if kv.1 == k then (kv.1, v) else kv)
  else d ++ [(k, v)]

/-- The scalar held by a slot, if it holds one. -/
def hvalScalar : HVal → Option Scalar
  | .leaf s => some s
  | .ref _ => none

/-- The scalar held by a pure tree, if it is a leaf. -/
def treeScalar : PTree → Option Scalar
  | .leaf s => some s
  | .node _ => none

/-- The `type` discriminator field of an override node. -/
def treeTypeField (es : List (String × PTree)) : Option PTree :=
  (es.find? (fun kv => kv.1 == "type")).map (fun kv => kv.2)

/-- Whether the `type` discriminator of the base sub-dict and of the
override sub-node are both present (as scalars) and differ. -/
def typeFieldChanged (d2 : Dict) (es : List (String × PTree)) : Bool :=
  match (lookupKey d2 "type").bind hvalScalar,
      (treeTypeField es).bind treeScalar with
  | some s1, some s2 => s1 != s2
  | _, _ => false

/-- Store a fresh materialization of the override value `t` into slot `k`
of the dict object at address `a` (wholesale replacement of the old
value). -/
def replaceKey (h : Heap) (a : Nat) (d : Dict) (k : String) (t : PTree) :
    Option Heap :=
  let p := allocTree h t
  some (p.1.write a (setKey d k p.2))

/-- Modelled from the spec: `deep_update` (ray.rllib.utils, called at
trainer.py line 1362 but not included under src/), following section 4.1
of the specification.  For each top-level override key, in order: an
unknown key fails unless unknown keys are allowed; for a key in
`deepKeys` whose value is a sub-dict on both sides, the sub-dicts are
merged recursively with unknown keys allowed inside; for a key in
`discKeys` whose `type` field differs between the two sub-dicts, the
entire subtree is replaced wholesale; every other key is replaced
atomically.  Mutates the target dict object in place.  `fuel` bounds the
total work, one unit per processed key and per nesting level. -/
def deepUpdate (fuel : Nat) (h : Heap) (a : Nat) (ov : List (String × PTree))
    (allowUnknown : Bool) (deepKeys discKeys : List String) : Option Heap :=
  match fuel, ov with
  | 0, _ => none
  | _ + 1, [] => some h
  | f + 1, (k, t) :: rest =>
    match h.store a with
    | none => none
    | some d =>
      if !(d.any (fun kv => kv.1 == k)) && !allowUnknown then none
      else
        match
          (match lookupKey d k, t with
            | some (.ref a2), .node es =>
              match h.store a2 with
              | some d2 =>
                if discKeys.contains k && typeFieldChanged d2 es then
                  replaceKey h a d k t
                else if deepKeys.contains k then
                  deepUpdate f h a2 es true deepKeys discKeys
                else replaceKey h a d k t
              | none => replaceKey h a d k t
            | _, _ => replaceKey h a d k t)
        with
        | none => none
        | some h1 => deepUpdate f h1 a rest allowUnknown deepKeys discKeys

/-- The action of the spec-modelled `deep_update` on one override key `k`
with override value `t`, against the dict object `d` stored at address
`a` (the inner match of `deepUpdate`, as a standalone function):
recursive merge when `k` is an allow-listed sub-dict key and both sides
hold a sub-dict, wholesale replacement when the `type` discriminator of a
`discKeys` sub-dict changes, atomic replacement otherwise. -/
def deepUpdateStep (fuel : Nat) (h : Heap) (a : Nat) (d : Dict) (k : String)
    (t : PTree) (deepKeys discKeys : List String) : Option Heap :=
  match lookupKey d k, t with
  | some (.ref a2), .node es =>
    match h.store a2 with
    | some d2 =>
      if discKeys.contains k && typeFieldChanged d2 es then
        replaceKey h a d k t
      else if deepKeys.contains k then
        deepUpdate fuel h a2 es true deepKeys discKeys
      else replaceKey h a d k t
    | none => replaceKey h a d k t
  | _, _ => replaceKey h a d k t

/-- `Trainer._allow_unknown_subkeys` (trainer.py lines 523-529). -/
def allowUnknownSubkeys : List String :=
  ["tf_session_args", "local_tf_session_args", "env_config", "model",
   "optimizer", "multiagent", "custom_resources_per_worker",
   "evaluation_config", "exploration_config",
   "extra_python_environs_for_driver", "extra_python_environs_for_worker",
   "input_config"]

/-- `Trainer._override_all_subkeys_if_type_changes` (trainer.py line 533). -/
def overrideAllSubkeysIfTypeChanges : List String :=
  ["exploration_config"]

/-- The legacy-callbacks special case of `merge_trainer_configs`
(trainer.py lines 1351-1359): an override whose `callbacks` value is a
dict is replaced by a zero-argument factory closure before merging; the
closure is invisible to the config tree and is modelled by a marker leaf. -/
def wrapLegacyCallbacks (ov : List (String × PTree)) : List (String × PTree) :=
  ov.map (fun kv =>
    match kv with
    | ("callbacks", .node _) => ("callbacks", .leaf (.str "make_callbacks"))
    | _ => kv)

/-- `Trainer.merge_trainer_configs` (trainer.py lines 1344-1364): wrap a
legacy callbacks dict in the override, deep-copy the base config object,
then `deep_update` the copy in place with the override and the
`Trainer`-level subkey allow-list and discriminator list; the merged
result is the mutated copy. -/
def merge_trainer_configs (fuel : Nat) (h : Heap) (base : Nat)
    (ov : List (String × PTree)) (allowUnknown : Bool) :
    Option (Heap × Nat) :=
  match deepcopy h fuel (.ref base) with
  | none => none
  | some q =>
    match q.2 with
    | .leaf _ => none
    | .ref c =>
      match deepUpdate fuel q.1 c (wrapLegacyCallbacks ov) allowUnknown
          allowUnknownSubkeys overrideAllSubkeysIfTypeChanges with
      | some h2 => some (h2, c)
      | none => none

/-- A slot refers only below `n`. -/
def RefBelow (n : Nat) : HVal → Prop
  | .leaf _ => True
  | .ref a => a < n

/-- Every slot of a dict refers only below `n`. -/
def DictBelow (n : Nat) (d : Dict) : Prop :=
  ∀ kv ∈ d, RefBelow n kv.2

/-- A slot refers only at or above `n`. -/
def RefAbove (n : Nat) : HVal → Prop
  | .leaf _ => True
  | .ref a => n ≤ a

/-- Every slot of a dict refers only at or above `n`. -/
def DictAbove (n : Nat) (d : Dict) : Prop :=
  ∀ kv ∈ d, RefAbove n kv.2

/-- Well-formedness of a heap as produced by a Python program: nothing is
stored at or beyond the allocation frontier, and every stored reference is
below the frontier. -/
def HeapWF (h : Heap) : Prop :=
  (∀ a, h.next ≤ a → h.store a = none) ∧
  (∀ a d, h.store a = some d → DictBelow h.next d)

/-- Separation invariant used for the frame proof: `n` splits the heap
into an untouched low region and a working high region; nothing is stored
at or beyond the frontier, and every dict stored in the high region refers
only into the high region. -/
structure HeapSep (h : Heap) (n : Nat) : Prop where
  le_next : n ≤ h.next
  high_none : ∀ a, h.next ≤ a → h.store a = none
  high_closed : ∀ a, n ≤ a → ∀ d, h.store a = some d → DictAbove n d

/-! ## Concrete inputs used by counterexamples and witnesses -/

/-- A configuration with 2 evaluation workers configured but
`evaluation_interval` left at its default `None`, on which the claimed
bundle count fails. -/
def evalIntervalCexCfg : ResourceCfg :=
  ⟨1, 0, 1, 0, 2, 2, none, none, none, none⟩

/-- A small concrete base-config heap: object 0 is the base dict holding a
scalar `lr` and a reference to the nested `model` dict at object 1. -/
def wHeap : Heap :=
  ⟨fun a =>
    if a = 0 then some [("lr", .leaf (.int 1)), ("model", .ref 1)]
    else if a = 1 then some [("dim", .leaf (.int 4))] else none,
   2⟩

/-- A concrete override: replace `lr` and deep-merge into `model`. -/
def wOv : List (String × PTree) :=
  [("lr", .leaf (.int 2)), ("model", .node [("dim", .leaf (.int 8))])]

/-- The concrete merge result used by the frame-property witness. -/
def wMerged : Option (Heap × Nat) :=
  merge_trainer_configs 9 wHeap 0 wOv false

end RayTrainer

namespace RayTrainer

/-! ## Theorems for the train loop and recovery -/

theorem attemptsMade_le_fuel (ign : Bool) (step : Nat → StepOutcome)
    (recov : Nat → Bool) : ∀ fuel i, attemptsMade ign step recov i fuel ≤ fuel := by
  intro fuel
  induction fuel with
  | zero => intro i; simp [attemptsMade]
  | succ n ih =>
    intro i
    simp only [attemptsMade]
    cases hs : step i with
    | ok r => simp
    | otherError => simp
    | rayError =>
      cases ign with
      | false => simp
      | true =>
        cases hrec : recov i with
        | false => simp [hrec]
        | true =>
          simp only [hrec, if_true]
          have h2 := ih (i + 1)
          omega

theorem trainAttempts_ok_some (ign : Bool) (step : Nat → StepOutcome)
    (recov : Nat → Bool) : ∀ fuel i r,
    trainAttempts ign step recov i fuel = .ok (some r) →
    ∃ j, step j = .ok r := by
  intro fuel
  induction fuel with
  | zero => intro i r h; simp [trainAttempts] at h
  | succ n ih =>
    intro i r h
    simp only [trainAttempts] at h
    cases hs : step i with
    | ok r2 =>
      rw [hs] at h
      simp at h
      exact ⟨i, by rw [hs, h]⟩
    | rayError =>
      rw [hs] at h
      cases ign with
      | false => simp at h
      | true =>
        cases hrec : recov i with
        | false => simp [hrec] at h
        | true =>
          simp only [hrec, if_true] at h
          exact ih (i + 1) r h
    | otherError =>
      rw [hs] at h
      simp at h

/-- Claim C1: For every call to `train()`, the underlying training step is
attempted at most `1 + R` times with `R = 3` (`MAX_WORKER_FAILURE_RETRIES`);
if no attempt succeeds, `train()` surfaces a hard error (one of the raised
exceptions, or the final `RuntimeError`), never a silent stale or empty
result. -/
theorem train_retry_bound_and_raises (ign : Bool) (step : Nat → StepOutcome)
    (recov : Nat → Bool) :
    MAX_WORKER_FAILURE_RETRIES = 3 ∧
    numAttempts ign step recov ≤ 1 + MAX_WORKER_FAILURE_RETRIES ∧
    ((∀ i r, step i ≠ .ok r) → ∃ e, train ign step recov = .error e) := by
  refine ⟨rfl, attemptsMade_le_fuel ign step recov _ 0, ?_⟩
  intro hfail
  unfold train
  cases hres : trainAttempts ign step recov 0 (1 + MAX_WORKER_FAILURE_RETRIES) with
  | error e => exact ⟨e, rfl⟩
  | ok o =>
    cases o with
    | none => exact ⟨.noResult, rfl⟩
    | some r =>
      obtain ⟨j, hj⟩ := trainAttempts_ok_some ign step recov _ 0 r hres
      exact absurd hj (hfail j r)

theorem train_retry_bound_and_raises_witness :
    ∃ e, train true (fun _ => StepOutcome.rayError) (fun _ => true) = .error e :=
  (train_retry_bound_and_raises true (fun _ => StepOutcome.rayError)
    (fun _ => true)).2.2 (by intro i r h; simp at h)

/-- Claim C3: During a `train()` attempt, a worker-originating (`RayError`)
failure triggers recovery and continuation to a further attempt only when
`ignore_worker_failures` is enabled (and otherwise re-raises to the
caller); any failure that is not worker-originating is re-raised on its
first occurrence with no retry, regardless of the tolerance setting. -/
theorem train_failure_routing (ign : Bool) (step : Nat → StepOutcome)
    (recov : Nat → Bool) (i fuel : Nat) :
    (step i = .rayError →
      trainAttempts ign step recov i (fuel + 1) =
        (if ign then
          (if recov i then trainAttempts ign step recov (i + 1) fuel
           else .error .recoverFailed)
         else .error .rayErrorRaised)) ∧
    (step i = .otherError →
      trainAttempts ign step recov i (fuel + 1) = .error .otherErrorRaised) ∧
    (ign = false → step 0 = .rayError →
      train ign step recov = .error .rayErrorRaised) := by
  refine ⟨?_, ?_, ?_⟩
  · intro hs
    simp only [trainAttempts, hs]
  · intro hs
    simp only [trainAttempts, hs]
  · intro hign hs
    unfold train
    rw [show 1 + MAX_WORKER_FAILURE_RETRIES = 3 + 1 from rfl]
    simp only [trainAttempts, hs, hign]
    simp

theorem train_failure_routing_witness :
    trainAttempts false (fun _ => StepOutcome.otherError) (fun _ => true) 0 4 =
      .error .otherErrorRaised ∧
    train false (fun _ => StepOutcome.rayError) (fun _ => true) =
      .error .rayErrorRaised :=
  ⟨((train_failure_routing false (fun _ => StepOutcome.otherError)
      (fun _ => true) 0 3).2.1 rfl),
   ((train_failure_routing false (fun _ => StepOutcome.rayError)
      (fun _ => true) 0 0).2.2 rfl rfl)⟩

theorem length_filter_add_length_not (ws : List Nat) (probe : Nat → Bool) :
    (ws.filter probe).length + (ws.filter (fun w => !probe w)).length =
      ws.length := by
  induction ws with
  | nil => simp
  | cons a l ih =>
    cases h : probe a with
    | true => simp [List.filter_cons, h]; omega
    | false => simp [List.filter_cons, h]; omega

/-- Claim C2: For a primary pool with `N ≥ 1` remote workers, if exactly
`K < N` remote workers fail the health-check probe, `_try_recover` keeps
exactly the `N - K` workers whose probe succeeded (in pool order) as the
new remote-worker set; if `K = N`, it raises instead of producing an empty
pool. -/
theorem try_recover_prunes_unhealthy (ws : List Nat) (probe : Nat → Bool)
    (_hN : 1 ≤ ws.length) :
    ((ws.filter (fun w => !probe w)).length < ws.length →
      tryRecover ws probe = .ok (ws.filter probe) ∧
      (ws.filter probe).length =
        ws.length - (ws.filter (fun w => !probe w)).length) ∧
    ((ws.filter (fun w => !probe w)).length = ws.length →
      tryRecover ws probe = .error .notEnoughHealthy) := by
  have hsum := length_filter_add_length_not ws probe
  constructor
  · intro hK
    have hpos : 1 ≤ (ws.filter probe).length := by omega
    constructor
    · unfold tryRecover
      simp only
      rw [if_neg (by omega)]
    · omega
  · intro hK
    have hzero : (ws.filter probe).length = 0 := by omega
    unfold tryRecover
    simp only
    rw [if_pos (by omega)]

theorem try_recover_prunes_unhealthy_witness :
    tryRecover [10, 11, 12] (fun w => w ≠ 11) = .ok [10, 12] ∧
    tryRecover [10, 11, 12] (fun _ => false) = .error .notEnoughHealthy := by
  have h1 := (try_recover_prunes_unhealthy [10, 11, 12] (fun w => w ≠ 11)
    (by decide)).1 (by decide)
  have h2 := (try_recover_prunes_unhealthy [10, 11, 12] (fun _ => false)
    (by decide)).2 (by decide)
  exact ⟨h1.1.trans rfl, h2⟩

/-! ## Theorems for checkpoint restore -/

/-- Claim C4: For every checkpoint-state bundle containing local-worker
state, `__setstate__` restores the local worker from the bundle and sends
the very same serialized blob to every remote worker, so afterwards every
remote worker holds state identical to the serialized local-worker
state. -/
theorem setstate_broadcast_same_blob (p : WorkerPool) (st : CheckpointState)
    (b : Blob) (h : st.worker = some b) :
    (setstateWorkers p st).localWorker.state = b ∧
    ∀ r ∈ (setstateWorkers p st).remoteWorkers,
      r.state = (setstateWorkers p st).localWorker.state := by
  simp only [setstateWorkers, h]
  refine ⟨rfl, ?_⟩
  intro r hr
  rw [List.mem_map] at hr
  obtain ⟨w, _, hrw⟩ := hr
  rw [← hrw]
  rfl

theorem setstate_broadcast_same_blob_witness :
    (setstateWorkers ⟨⟨0, [1]⟩, [⟨1, [2]⟩, ⟨2, [3]⟩]⟩
      ⟨some [9], none, none⟩).localWorker.state = [9] ∧
    ∀ r ∈ (setstateWorkers ⟨⟨0, [1]⟩, [⟨1, [2]⟩, ⟨2, [3]⟩]⟩
      ⟨some [9], none, none⟩).remoteWorkers,
      r.state = (setstateWorkers ⟨⟨0, [1]⟩, [⟨1, [2]⟩, ⟨2, [3]⟩]⟩
        ⟨some [9], none, none⟩).localWorker.state :=
  setstate_broadcast_same_blob ⟨⟨0, [1]⟩, [⟨1, [2]⟩, ⟨2, [3]⟩]⟩
    ⟨some [9], none, none⟩ [9] rfl

/-- Claim C6 counterexample: with no local replay buffer present
(`self.local_replay_buffer is None`) but `store_buffer_in_checkpoints =
True` and a bundle with no buffer data, configuration and bundle contents
disagree (restore requested but absent) yet `__setstate__` logs no
warning, refuting the claimed "exactly when" correspondence. -/
theorem setstate_buffer_warning_cex :
    ¬ ((((setstateEffects ⟨true, false, true⟩ ⟨none, none, none⟩).warnings ≠ []) ↔
      bufferDisagree ⟨true, false, true⟩ ⟨none, none, none⟩ = true)) := by
  decide

/-- Claim C6 (amended): on restore, optimizer state is restored only if
present in the bundle, replay-buffer state is restored only if present and
requested, and — provided the trainer holds a local replay buffer — a
non-fatal warning is logged exactly when the configured request for buffer
capture and the buffer contents of the bundle disagree. -/
theorem setstate_buffer_warning_amended (c : RestoreCtx) (st : CheckpointState) :
    ((setstateEffects c st).optimizerRestored = true →
      st.optimizer.isSome = true) ∧
    ((setstateEffects c st).bufferRestored = true →
      st.localReplayBuffer.isSome = true ∧
      c.storeBufferInCheckpoints = true) ∧
    (((setstateEffects c st).warnings ≠ []) ↔
      (c.hasLocalReplayBuffer = true ∧ bufferDisagree c st = true)) := by
  obtain ⟨ho, hb, hs⟩ := c
  obtain ⟨w, o, buf⟩ := st
  cases hb <;> cases hs <;> cases buf <;> cases o <;> cases ho <;>
    simp [setstateEffects, bufferDisagree, bufferRequestedAbsentWarn,
      bufferPresentUnrequestedWarn]

theorem setstate_buffer_warning_amended_witness :
    ((⟨some [1], some [2], none⟩ : CheckpointState)).optimizer.isSome = true ∧
    (((setstateEffects ⟨true, true, true⟩ ⟨some [1], some [2], none⟩).warnings ≠ []) ↔
      ((⟨true, true, true⟩ : RestoreCtx).hasLocalReplayBuffer = true ∧
        bufferDisagree ⟨true, true, true⟩ ⟨some [1], some [2], none⟩ = true)) :=
  ⟨(setstate_buffer_warning_amended ⟨true, true, true⟩
      ⟨some [1], some [2], none⟩).1 (by decide),
   (setstate_buffer_warning_amended ⟨true, true, true⟩
      ⟨some [1], some [2], none⟩).2.2⟩

/-! ## Theorems for evaluation -/

theorem pyCeil_eq_ceil (a b : Nat) (hb : 1 ≤ b) :
    pyCeil a b = ⌈(a : ℚ) / (b : ℚ)⌉₊ := by
  unfold pyCeil
  rcases Nat.eq_zero_or_pos a with ha | ha
  · subst ha
    have h1 : (0 + b - 1) / b = 0 := Nat.div_eq_of_lt (by omega)
    rw [h1]
    simp
  · have hb0 : 0 < b := hb
    set n := (a + b - 1) / b with hn
    have hn1 : 1 ≤ n := (Nat.le_div_iff_mul_le hb0).2 (by omega)
    have key : a ≤ n * b ∧ (n - 1) * b < a := by
      have h1 : b * n + (a + b - 1) % b = a + b - 1 := Nat.div_add_mod _ _
      have hr : (a + b - 1) % b < b := Nat.mod_lt _ hb0
      have h2 : (n - 1) * b = n * b - b := by
        cases n with
        | zero => simp
        | succ m => simp [Nat.succ_sub_one, Nat.succ_mul]
      have h3 : n * b = b * n := Nat.mul_comm n b
      have h4 : b ≤ n * b := Nat.le_mul_of_pos_left b (by omega)
      omega
    have hbq : (0 : ℚ) < (b : ℚ) := by exact_mod_cast hb0
    symm
    rw [Nat.ceil_eq_iff (by omega)]
    constructor
    · rw [lt_div_iff₀ hbq]
      exact_mod_cast key.2
    · rw [div_le_iff₀ hbq]
      exact_mod_cast key.1

/-- Claim C5: With an evaluation pool of `N ≥ 1` remote workers (the pool
built by `setup` with `num_workers = evaluation_num_workers`) and a target
of `E = evaluation_num_episodes` episodes, `evaluate()` runs
`ceil(E / N)` fan-out rounds and issues `rounds * N` episode-sampling
calls in total (the overshoot over `E` is not corrected). -/
theorem evaluate_round_accounting (s : EvalSetup) (remotes : List Nat)
    (hcu : s.customEvalFunction = none)
    (hew : s.evaluationWorkers = some remotes)
    (hn : s.evaluationNumWorkers = remotes.length)
    (hpos : 1 ≤ remotes.length) :
    (evaluateM s).2.numRounds =
      ⌈(s.evaluationNumEpisodes : ℚ) / (remotes.length : ℚ)⌉₊ ∧
    (evaluateM s).2.remoteSampleCalls =
      (evaluateM s).2.numRounds * remotes.length := by
  have hz : s.evaluationNumWorkers ≠ 0 := by omega
  simp only [evaluateM, hcu, hew, if_neg hz]
  constructor
  · rw [hn]
    exact pyCeil_eq_ceil s.evaluationNumEpisodes remotes.length hpos
  · trivial

theorem evaluate_round_accounting_witness :
    (evaluateM ⟨none, some [0, 1, 2], false, 10, 3⟩).2.numRounds =
      ⌈((10 : ℕ) : ℚ) / ((3 : ℕ) : ℚ)⌉₊ ∧
    (evaluateM ⟨none, some [0, 1, 2], false, 10, 3⟩).2.numRounds = 4 ∧
    (evaluateM ⟨none, some [0, 1, 2], false, 10, 3⟩).2.remoteSampleCalls = 12 := by
  have h := evaluate_round_accounting ⟨none, some [0, 1, 2], false, 10, 3⟩
    [0, 1, 2] rfl rfl rfl (by decide)
  exact ⟨h.1, rfl, rfl⟩

/-- Claim C7 counterexample: with no evaluation worker set, a local worker
without an environment, and `evaluation_num_episodes = 0`, the sampling
loop of `evaluate()` never runs, so no `sample()` call raises; `evaluate()`
returns collected metrics and never produces the remediation-message
configuration error the claim asserts. -/
theorem evaluate_no_env_zero_episodes_cex :
    (evaluateM ⟨none, none, false, 0, 0⟩).1 = .ok collectedMetrics ∧
    (evaluateM ⟨none, none, false, 0, 0⟩).1 ≠ .raised noEvalEnvMsg := by
  exact ⟨rfl, by decide⟩

set_option maxRecDepth 8192 in
/-- Claim C7 (amended): When no evaluation worker set exists, the primary
local worker has no environment (no `input_reader`), and at least one
evaluation episode is configured (`evaluation_num_episodes ≥ 1`, so the
sampling loop attempts a `sample()`), `evaluate()` raises a configuration
`ValueError` whose message names the two valid remediations (creating a
separate evaluation worker set via `evaluation_interval`, or giving the
local worker an environment via `create_env_on_driver`). -/
theorem evaluate_no_env_actionable_error (s : EvalSetup)
    (hcu : s.customEvalFunction = none)
    (hew : s.evaluationWorkers = none)
    (henv : s.localWorkerHasInputReader = false)
    (hE : 1 ≤ s.evaluationNumEpisodes) :
    (evaluateM s).1 = .raised noEvalEnvMsg ∧
    strContains noEvalEnvMsg "creating a separate evaluation worker set" = true ∧
    strContains noEvalEnvMsg "worker to have an environment" = true := by
  refine ⟨?_, by decide, by decide⟩
  have hEz : s.evaluationNumEpisodes ≠ 0 := by omega
  simp only [evaluateM, hcu, hew, henv, if_neg hEz]
  rfl

theorem evaluate_no_env_actionable_error_witness :
    (evaluateM ⟨none, none, false, 10, 0⟩).1 = .raised noEvalEnvMsg ∧
    strContains noEvalEnvMsg "creating a separate evaluation worker set" = true ∧
    strContains noEvalEnvMsg "worker to have an environment" = true :=
  evaluate_no_env_actionable_error ⟨none, none, false, 10, 0⟩ rfl rfl rfl
    (by decide)

/-- Claim C8 counterexample: a configured custom eval function that does
not return a non-empty dict of metrics makes `evaluate()` raise a
`ValueError` — the call aborts with an exception instead of reporting a
non-fatal configuration error. -/
theorem custom_eval_invalid_raises_cex :
    (evaluateM ⟨some (.dict []), some [0], true, 10, 1⟩).1 =
      .raised customEvalMsg := rfl

/-- Claim C8 (amended): a configured custom evaluation function fully
replaces the default evaluation procedure (no default sampling work is
performed), and if it does not return a non-empty dict of metrics,
`evaluate()` raises a fatal `ValueError` (the source raises; the failure
is not a non-fatal report). -/
theorem custom_eval_replaces_default (s : EvalSetup) (res : CustomEvalResult)
    (h : s.customEvalFunction = some res) :
    (evaluateM s).2 = ⟨0, 0, 0, 0⟩ ∧
    (evaluateM s).1 = (match res with
      | .dict (e :: es) => .ok (e :: es)
      | .dict [] => .raised customEvalMsg
      | .nonDict => .raised customEvalMsg) := by
  cases res with
  | dict l =>
    cases l with
    | nil => simp [evaluateM, h]
    | cons e es => simp [evaluateM, h]
  | nonDict => simp [evaluateM, h]

theorem custom_eval_replaces_default_witness :
    (evaluateM ⟨some (.dict [("m", 1)]), none, true, 10, 0⟩).2 =
      ⟨0, 0, 0, 0⟩ ∧
    (evaluateM ⟨some (.dict [("m", 1)]), none, true, 10, 0⟩).1 =
      (match (CustomEvalResult.dict [("m", 1)]) with
        | .dict (e :: es) => .ok (e :: es)
        | .dict [] => .raised customEvalMsg
        | .nonDict => .raised customEvalMsg) :=
  custom_eval_replaces_default ⟨some (.dict [("m", 1)]), none, true, 10, 0⟩
    (.dict [("m", 1)]) rfl

/-! ## Theorems for the resource request -/

/-- Claim C9 counterexample: with `evaluation_num_workers = 2` (evaluation
workers configured) but `evaluation_interval = None`, the descriptor holds
only the driver bundle and the two rollout-worker bundles — no evaluation
bundles — so the claimed "one bundle per evaluation worker whenever
evaluation workers are configured" fails. -/
theorem resource_request_eval_interval_cex :
    evalIntervalCexCfg.evaluation_num_workers = 2 ∧
    (default_resource_request evalIntervalCexCfg).bundles.length = 3 ∧
    (default_resource_request evalIntervalCexCfg).bundles.length ≠
      1 + evalIntervalCexCfg.num_workers +
        evalIntervalCexCfg.evaluation_num_workers := by
  refine ⟨rfl, rfl, ?_⟩
  decide

/-- Claim C9 (amended): the resource request descriptor consists of one
bundle for the driver and one bundle per configured rollout worker; one
bundle per configured evaluation worker is added exactly when the
configured `evaluation_interval` is truthy (neither `None` nor `0`); the
descriptor is tagged with the user-configured placement strategy
(defaulting to `"PACK"`). -/
theorem resource_request_bundles_amended (cf : ResourceCfg) :
    (default_resource_request cf).bundles.length =
      1 + cf.num_workers +
        (if truthyInterval cf.evaluation_interval then
          cf.evaluation_num_workers else 0) ∧
    (default_resource_request cf).bundles.head? =
      some ⟨cf.num_cpus_for_driver, cf.num_gpus⟩ ∧
    (default_resource_request cf).strategy =
      cf.user_placement_strategy.getD "PACK" := by
  refine ⟨?_, rfl, rfl⟩
  simp only [default_resource_request, List.length_append,
    List.length_replicate, List.length_cons, List.length_nil]
  cases h : truthyInterval cf.evaluation_interval <;> simp

/-! ## Frame lemmas for the heap model -/

theorem foldr_eq_readEntries (h : Heap) (f : Nat) (d : Dict) :
    d.foldr
      (fun kv acc =>
        match readVal h f kv.2, acc with
        | some t, some ts => some ((kv.1, t) :: ts)
        | _, _ => none)
      (some []) = readEntries h f d := by
  induction d with
  | nil => simp [readEntries]
  | cons kv rest ih =>
    rw [List.foldr_cons, ih]
    simp only [readEntries]

theorem readVal_ref_succ (h : Heap) (f : Nat) (a : Nat) :
    readVal h (f + 1) (.ref a) =
      (match h.store a with
        | none => none
        | some d => (readEntries h f d).map PTree.node) := by
  rw [readVal]
  cases hsd : h.store a <;> simp [foldr_eq_readEntries]

theorem readVal_agree (h h2 : Heap) (n : Nat)
    (hag : ∀ a, a < n → h2.store a = h.store a)
    (hlc : ∀ a, a < n → ∀ d, h.store a = some d → DictBelow n d) :
    ∀ fuel, (∀ v, RefBelow n v → readVal h2 fuel v = readVal h fuel v) ∧
      (∀ d, DictBelow n d → readEntries h2 fuel d = readEntries h fuel d) := by
  intro fuel
  induction fuel with
  | zero =>
    constructor
    · intro v _
      simp [readVal]
    · intro d _
      induction d with
      | nil => simp [readEntries]
      | cons kv rest ihd => simp [readEntries, readVal]
  | succ f ih =>
    obtain ⟨ihV, ihE⟩ := ih
    have hV : ∀ v, RefBelow n v → readVal h2 (f + 1) v = readVal h (f + 1) v := by
      intro v hv
      cases v with
      | leaf s => simp [readVal]
      | ref a =>
        have ha : a < n := hv
        rw [readVal_ref_succ, readVal_ref_succ]
        rw [hag a ha]
        cases hsd : h.store a with
        | none => rfl
        | some d =>
          simp only
          rw [ihE d (hlc a ha d hsd)]
    refine ⟨hV, ?_⟩
    intro d hd
    induction d with
    | nil => simp [readEntries]
    | cons kv rest ihd =>
      have h1 : RefBelow n kv.2 := hd kv (by simp)
      have h2r : DictBelow n rest := by
        intro x hx
        exact hd x (by simp [hx])
      simp only [readEntries]
      rw [hV kv.2 h1, ihd h2r]

theorem alloc_sep (h : Heap) (d : Dict) (n : Nat) (hs : HeapSep h n)
    (hd : DictAbove n d) :
    HeapSep (h.alloc d).1 n ∧ h.next ≤ (h.alloc d).1.next ∧
    (∀ x, x < h.next → (h.alloc d).1.store x = h.store x) ∧
    n ≤ (h.alloc d).2 := by
  refine ⟨⟨?_, ?_, ?_⟩, ?_, ?_, ?_⟩
  · have := hs.le_next
    simp only [Heap.alloc]
    omega
  · intro a ha
    simp only [Heap.alloc] at ha ⊢
    rw [if_neg (by omega)]
    exact hs.high_none a (by omega)
  · intro a ha d2 hd2
    simp only [Heap.alloc] at hd2
    by_cases hae : a = h.next
    · rw [if_pos hae] at hd2
      obtain rfl := Option.some.inj hd2
      exact hd
    · rw [if_neg hae] at hd2
      exact hs.high_closed a ha d2 hd2
  · simp only [Heap.alloc]
    omega
  · intro x hx
    simp only [Heap.alloc]
    rw [if_neg (by omega)]
  · simp only [Heap.alloc]
    exact hs.le_next

mutual

theorem allocTree_spec (n : Nat) (t : PTree) (h : Heap) (hs : HeapSep h n) :
    HeapSep (allocTree h t).1 n ∧ h.next ≤ (allocTree h t).1.next ∧
    (∀ x, x < h.next → (allocTree h t).1.store x = h.store x) ∧
    RefAbove n (allocTree h t).2 := by
  cases t with
  | leaf s =>
    have he : allocTree h (.leaf s) = (h, .leaf s) := by simp [allocTree]
    rw [he]
    exact ⟨hs, le_refl _, fun x _ => rfl, trivial⟩
  | node es =>
    obtain ⟨hs1, hn1, hf1, hd1⟩ := allocDict_spec n es h hs
    obtain ⟨hsa, hna, hfa, hva⟩ :=
      alloc_sep (allocDict h es).1 (allocDict h es).2 n hs1 hd1
    simp only [allocTree]
    refine ⟨hsa, le_trans hn1 hna, ?_, hva⟩
    intro x hx
    rw [hfa x (lt_of_lt_of_le hx hn1), hf1 x hx]
termination_by sizeOf t

theorem allocDict_spec (n : Nat) (es : List (String × PTree)) (h : Heap)
    (hs : HeapSep h n) :
    HeapSep (allocDict h es).1 n ∧ h.next ≤ (allocDict h es).1.next ∧
    (∀ x, x < h.next → (allocDict h es).1.store x = h.store x) ∧
    DictAbove n (allocDict h es).2 := by
  cases es with
  | nil =>
    have he : allocDict h [] = (h, []) := by simp [allocDict]
    rw [he]
    exact ⟨hs, le_refl _, fun x _ => rfl, by intro kv hkv; simp at hkv⟩
  | cons kt rest =>
    obtain ⟨k, t⟩ := kt
    obtain ⟨hsA, hnA, hfA, hvA⟩ := allocTree_spec n t h hs
    obtain ⟨hsB, hnB, hfB, hdB⟩ := allocDict_spec n rest (allocTree h t).1 hsA
    simp only [allocDict]
    refine ⟨hsB, le_trans hnA hnB, ?_, ?_⟩
    · intro x hx
      rw [hfB x (lt_of_lt_of_le hx hnA), hfA x hx]
    · intro kv hkv
      rcases List.mem_cons.mp hkv with h1 | h1
      · rw [h1]
        exact hvA
      · exact hdB kv h1
termination_by sizeOf es

end

theorem setKey_above (n : Nat) (d : Dict) (k : String) (v : HVal)
    (hd : DictAbove n d) (hv : RefAbove n v) :
    DictAbove n (setKey d k v) := by
  intro kv hkv
  unfold setKey at hkv
  split at hkv
  · rw [List.mem_map] at hkv
    obtain ⟨kv0, hkv0, heq⟩ := hkv
    subst heq
    split
    · exact hv
    · exact hd kv0 hkv0
  · rcases List.mem_append.mp hkv with h1 | h1
    · exact hd kv h1
    · simp only [List.mem_singleton] at h1
      subst h1
      exact hv

theorem lookupKey_mem (d : Dict) (k : String) (v : HVal)
    (h : lookupKey d k = some v) : ∃ kv ∈ d, kv.2 = v := by
  unfold lookupKey at h
  cases hf : d.find? (fun kv => kv.1 == k) with
  | none => rw [hf] at h; simp at h
  | some kv0 =>
    rw [hf] at h
    simp at h
    exact ⟨kv0, List.mem_of_find?_eq_some hf, h⟩

theorem replaceKey_frame (n : Nat) (h : Heap) (a : Nat) (d : Dict)
    (k : String) (t : PTree) (h1 : Heap)
    (hs : HeapSep h n) (ha : n ≤ a) (hd : h.store a = some d)
    (hr : replaceKey h a d k t = some h1) :
    HeapSep h1 n ∧ (∀ x, x < n → h1.store x = h.store x) ∧
    h.next ≤ h1.next := by
  unfold replaceKey at hr
  obtain rfl := Option.some.inj hr
  obtain ⟨hsA, hnA, hfA, hvA⟩ := allocTree_spec n t h hs
  have haLt : a < h.next := by
    by_contra hcon
    push_neg at hcon
    rw [hs.high_none a hcon] at hd
    exact Option.noConfusion hd
  have hdAbove : DictAbove n d := hs.high_closed a ha d hd
  have hset : DictAbove n (setKey d k (allocTree h t).2) :=
    setKey_above n d k _ hdAbove hvA
  refine ⟨⟨?_, ?_, ?_⟩, ?_, ?_⟩
  · simp only [Heap.write]
    exact hsA.le_next
  · intro x hx
    simp only [Heap.write] at hx ⊢
    rw [if_neg (by omega)]
    exact hsA.high_none x hx
  · intro x hx d2 hd2
    simp only [Heap.write] at hd2
    by_cases hxa : x = a
    · rw [if_pos hxa] at hd2
      obtain rfl := Option.some.inj hd2
      exact hset
    · rw [if_neg hxa] at hd2
      exact hsA.high_closed x hx d2 hd2
  · intro x hx
    simp only [Heap.write]
    rw [if_neg (by omega), hfA x (by omega)]
  · simp only [Heap.write]
    exact hnA

theorem deepUpdate_cons_eq (f : Nat) (h : Heap) (a : Nat) (k : String)
    (t : PTree) (rest : List (String × PTree)) (au : Bool)
    (dk ds : List String) :
    deepUpdate (f + 1) h a ((k, t) :: rest) au dk ds =
      (match h.store a with
        | none => none
        | some d =>
          if !(d.any (fun kv => kv.1 == k)) && !au then none
          else
            match deepUpdateStep f h a d k t dk ds with
            | none => none
            | some h1 => deepUpdate f h1 a rest au dk ds) := by
  rw [deepUpdate]
  rfl

theorem deepUpdateStep_frame (f : Nat) (n : Nat)
    (ihU : ∀ (h : Heap) (a : Nat) (ov : List (String × PTree)) (au : Bool)
      (dk ds : List String) (h1 : Heap), HeapSep h n → n ≤ a →
      deepUpdate f h a ov au dk ds = some h1 →
      HeapSep h1 n ∧ (∀ x, x < n → h1.store x = h.store x) ∧
        h.next ≤ h1.next)
    (h : Heap) (a : Nat) (d : Dict) (k : String) (t : PTree)
    (dk ds : List String) (h1 : Heap)
    (hs : HeapSep h n) (ha : n ≤ a) (hd : h.store a = some d)
    (hu : deepUpdateStep f h a d k t dk ds = some h1) :
    HeapSep h1 n ∧ (∀ x, x < n → h1.store x = h.store x) ∧
    h.next ≤ h1.next := by
  unfold deepUpdateStep at hu
  split at hu
  · -- base slot is a sub-dict reference, override value is a node
    rename_i a2 es hlk
    split at hu
    · -- the referenced sub-dict exists
      rename_i d2 hd2
      split at hu
      · exact replaceKey_frame n h a d k _ h1 hs ha hd hu
      · split at hu
        · -- recursive merge into the sub-dict at a2
          have ha2 : n ≤ a2 := by
            obtain ⟨kv, hmem, hkv⟩ := lookupKey_mem d k _ hlk
            have hav := hs.high_closed a ha d hd kv hmem
            rw [hkv] at hav
            exact hav
          exact ihU h a2 es true dk ds h1 hs ha2 hu
        · exact replaceKey_frame n h a d k _ h1 hs ha hd hu
    · exact replaceKey_frame n h a d k _ h1 hs ha hd hu
  all_goals exact replaceKey_frame n h a d k _ h1 hs ha hd hu

theorem deepUpdate_frame (fuel : Nat) :
    ∀ (h : Heap) (a : Nat) (ov : List (String × PTree)) (au : Bool)
      (dk ds : List String) (n : Nat) (h1 : Heap),
      HeapSep h n → n ≤ a → deepUpdate fuel h a ov au dk ds = some h1 →
      HeapSep h1 n ∧ (∀ x, x < n → h1.store x = h.store x) ∧
        h.next ≤ h1.next := by
  induction fuel with
  | zero =>
    intro h a ov au dk ds n h1 hs ha hu
    rw [deepUpdate] at hu
    exact Option.noConfusion hu
  | succ f ih =>
    intro h a ov au dk ds n h1 hs ha hu
    cases ov with
    | nil =>
      rw [deepUpdate] at hu
      obtain rfl := Option.some.inj hu
      exact ⟨hs, fun x _ => rfl, le_refl _⟩
    | cons kt rest =>
      obtain ⟨k, t⟩ := kt
      rw [deepUpdate_cons_eq] at hu
      split at hu
      · exact Option.noConfusion hu
      · rename_i d hd2
        split at hu
        · exact Option.noConfusion hu
        · split at hu
          · exact Option.noConfusion hu
          · rename_i h2 hstep
            obtain ⟨hs2, hf2, hn2⟩ :=
              deepUpdateStep_frame f n
                (fun h a ov au dk2 ds2 h1 => ih h a ov au dk2 ds2 n h1)
                h a d k t dk ds h2 hs ha hd2 hstep
            obtain ⟨hs3, hf3, hn3⟩ := ih h2 a rest au dk ds n h1 hs2 ha hu
            exact ⟨hs3, fun x hx => (hf3 x hx).trans (hf2 x hx),
              le_trans hn2 hn3⟩

theorem heapwf_sep (h : Heap) (hwf : HeapWF h) : HeapSep h h.next := by
  refine ⟨le_refl _, hwf.1, ?_⟩
  intro a ha d hd
  rw [hwf.1 a ha] at hd
  exact Option.noConfusion hd

theorem readVal_ref_lt (h : Heap) (fuel : Nat) (b : Nat) (t : PTree)
    (hwf : HeapWF h) (hr : readVal h fuel (.ref b) = some t) : b < h.next := by
  cases fuel with
  | zero => simp [readVal] at hr
  | succ f =>
    by_contra hcon
    push_neg at hcon
    rw [readVal_ref_succ, hwf.1 b hcon] at hr
    exact Option.noConfusion hr

/-- Claim C10: for every well-formed heap, base configuration object and
override tree, `merge_trainer_configs` leaves the base
configuration of the caller unchanged: the merge is performed in place on
a deep copy of the base, so reading the base object out of the heap yields
the same tree
before and after the call. -/
theorem merge_trainer_configs_preserves_base (fuel fuel2 : Nat) (h : Heap)
    (base : Nat) (ov : List (String × PTree)) (au : Bool) (p : Heap × Nat)
    (hwf : HeapWF h)
    (hm : merge_trainer_configs fuel h base ov au = some p) :
    readVal p.1 fuel2 (.ref base) = readVal h fuel2 (.ref base) := by
  unfold merge_trainer_configs at hm
  split at hm
  · exact Option.noConfusion hm
  · rename_i q hdc
    split at hm
    · exact Option.noConfusion hm
    · rename_i c hq2
      split at hm
      · rename_i h2 hd2
        obtain rfl := Option.some.inj hm
        unfold deepcopy at hdc
        split at hdc
        · exact Option.noConfusion hdc
        · rename_i t hrv
          have hat : allocTree h t = q := Option.some.inj hdc
          have hblt : base < h.next := readVal_ref_lt h fuel base t hwf hrv
          have hsep0 : HeapSep h h.next := heapwf_sep h hwf
          obtain ⟨hsA, hnA, hfA, hvA⟩ := allocTree_spec h.next t h hsep0
          rw [hat] at hsA hfA hvA
          rw [hq2] at hvA
          have hc : h.next ≤ c := hvA
          obtain ⟨hsB, hfB, hnB⟩ :=
            deepUpdate_frame fuel q.1 c (wrapLegacyCallbacks ov) au
              allowUnknownSubkeys overrideAllSubkeysIfTypeChanges h.next h2
              hsA hc hd2
          have hag : ∀ x, x < h.next → h2.store x = h.store x :=
            fun x hx => (hfB x hx).trans (hfA x hx)
          have hlc : ∀ x, x < h.next → ∀ d, h.store x = some d →
              DictBelow h.next d :=
            fun x _ d hd => hwf.2 x d hd
          exact (readVal_agree h h2 h.next hag hlc fuel2).1 (.ref base) hblt
      · exact Option.noConfusion hm

theorem wHeapWF : HeapWF wHeap := by
  constructor
  · intro a ha
    simp only [wHeap] at ha ⊢
    rw [if_neg (by omega), if_neg (by omega)]
  · intro a d hd
    simp only [wHeap] at hd ⊢
    split at hd
    · obtain rfl := Option.some.inj hd
      intro kv hkv
      simp only [List.mem_cons, List.not_mem_nil, or_false] at hkv
      rcases hkv with rfl | rfl
      · trivial
      · show (1 : Nat) < 2
        omega
    · split at hd
      · obtain rfl := Option.some.inj hd
        intro kv hkv
        simp only [List.mem_cons, List.not_mem_nil, or_false] at hkv
        subst hkv
        trivial
      · exact Option.noConfusion hd

theorem wMerged_isSome : wMerged.isSome = true := rfl

theorem merge_trainer_configs_preserves_base_witness :
    readVal (wMerged.get wMerged_isSome).1 6 (.ref 0) =
      readVal wHeap 6 (.ref 0) :=
  merge_trainer_configs_preserves_base 9 6 wHeap 0 wOv false
    (wMerged.get wMerged_isSome) wHeapWF (Option.some_get wMerged_isSome).symm

end RayTrainer
